import Mathlib

/-!
# Task scheduler storage: verification of `task_scheduler.py`

Shallow embedding of `synapse/storage/databases/main/task_scheduler.py`
(`TaskSchedulerWorkerStore`).  The store persists `ScheduledTask` records in a
`scheduled_tasks` table and exposes five operations: `get_scheduled_tasks`
(filtered list), `get_scheduled_task` (by id), `upsert_scheduled_task`,
`update_scheduled_task` (partial update), `delete_scheduled_task`.

The database pool primitives (`simple_upsert`, `simple_update`,
`simple_select_one`, `simple_delete`, `make_in_list_sql_clause`) and the
`ScheduledTask` / `TaskStatus` types live in other files of the repository and
are modelled here from the spec's description of the consumed capability and
data model.  Python's `json.dumps` / `json.loads` are modelled by a concrete
executable printer and parser for a JSON value type (integers for numbers,
string escaping restricted to `"` and `\`, canonical whitespace), which is
enough to state and prove the serialization claims.
-/

/-! ## JSON values (model of the structured `params` / `result` payloads) -/

/-- Structured JSON value: the payload type of `params` / `result`
(`JsonMapping` at the store boundary is the `obj` case). -/
inductive Json where
  | null : Json
  | bool (b : Bool) : Json
  | num (n : Int) : Json
  | str (s : String) : Json
  | arr (xs : List Json) : Json
  | obj (kvs : List (String × Json)) : Json

/-- Decimal digits of a natural number, most significant first
(model of how `json.dumps` prints a non-negative integer). -/
def printNat (n : Nat) : List Char :=
  if n = 0 then ['0'] else ((Nat.digits 10 n).map Nat.digitChar).reverse

/-- Model of `json.dumps` on a Python `int`. -/
def ppInt (n : Int) : List Char :=
  if n < 0 then '-' :: printNat n.natAbs else printNat n.natAbs

/-- String-body escaping performed by `json.dumps`: `"` and `\` are
backslash-escaped (control/non-ASCII escapes are out of model). -/
def escapeChars : List Char → List Char
  | [] => []
  | c :: cs =>
    if c = '"' ∨ c = '\\' then '\\' :: c :: escapeChars cs
    else c :: escapeChars cs

/-- A JSON string literal: quote, escaped body, quote. -/
def ppStr (s : String) : List Char :=
  '"' :: (escapeChars s.data ++ ['"'])

mutual

/-- Model of `json.dumps` (default separators `", "` and `": "`),
producing the character list of the encoded text. -/
def ppJson : Json → List Char
  | .num n => ppInt n
  | .str s => ppStr s
  | .arr [] => ['[', ']']
  | .arr (x :: xs) => '[' :: (ppItems x xs ++ [']'])
  | .obj [] => ['{', '}']
  | .obj (kv :: kvs) => '{' :: (ppMembers kv kvs ++ ['}'])
  | .null => ['n', 'u', 'l', 'l']
  | .bool false => ['f', 'a', 'l', 's', 'e']
  | .bool true => ['t', 'r', 'u', 'e']
termination_by v => sizeOf v
decreasing_by all_goals simp_wf

/-- Comma-separated encoding of a non-empty list of array elements. -/
def ppItems : Json → List Json → List Char
  | x, [] => ppJson x
  | x, y :: ys => ppJson x ++ ',' :: ' ' :: ppItems y ys
termination_by x ys => 1 + sizeOf x + sizeOf ys
decreasing_by all_goals (simp_wf <;> omega)

/-- Comma-separated encoding of a non-empty list of object members. -/
def ppMembers : String × Json → List (String × Json) → List Char
  | (k, v), [] => ppStr k ++ ':' :: ' ' :: ppJson v
  | (k, v), kv :: kvs => ppStr k ++ ':' :: ' ' :: ppJson v ++ ',' :: ' ' :: ppMembers kv kvs
termination_by kv kvs => 1 + sizeOf kv + sizeOf kvs
decreasing_by all_goals (simp_wf <;> omega)

end

/-- Model of `json.dumps`: the encoded text of a JSON value. -/
def dumps (v : Json) : String := ⟨ppJson v⟩

/-- Greedily take the leading decimal digits of the input. -/
def scanDigits : List Char → List Char × List Char
  | [] => ([], [])
  | c :: cs =>
    if c.isDigit then
      let (ds, r) := scanDigits cs
      (c :: ds, r)
    else ([], c :: cs)

/-- Numeric value of a digit string (most significant first). -/
def digitsVal (ds : List Char) : Nat :=
  ds.foldl (fun a c => a * 10 + (c.toNat - 48)) 0

/-- Parse the body of a string literal after the opening quote, undoing
`escapeChars`; fails at end of input before the closing quote or at an
unknown escape. -/
def parseStrBody : List Char → Option (List Char × List Char)
  | [] => none
  | c :: cs =>
    if c = '"' then some ([], cs)
    else if c = '\\' then
      match cs with
      | [] => none
      | e :: cs' =>
        if e = '"' ∨ e = '\\' then
          (parseStrBody cs').map fun (s, r) => (e :: s, r)
        else none
    else (parseStrBody cs).map fun (s, r) => (c :: s, r)
termination_by cs => cs.length
decreasing_by all_goals simp_wf <;> omega

/-- True when the input does not continue with a decimal digit (so a number
just parsed cannot be extended). -/
def headNotDigit : List Char → Bool
  | [] => true
  | c :: _ => !c.isDigit

mutual

/-- Model of the value parser inside `json.loads`, restricted to the canonical
output grammar of `dumps`; `fuel` bounds the nesting depth.  Returns the parsed
value and the unconsumed remainder, or `none` on malformed input. -/
def parseVal : Nat → List Char → Option (Json × List Char)
  | 0, _ => none
  | _ + 1, [] => none
  | fuel + 1, c :: r =>
    if c = '"' then
      (parseStrBody r).map fun (s, r') => (.str ⟨s⟩, r')
    else if c = '[' then
      if r.headD ' ' = ']' then some (.arr [], r.tail)
      else (parseItems fuel r).map fun (xs, r') => (.arr xs, r')
    else if c = '{' then
      if r.headD ' ' = '}' then some (.obj [], r.tail)
      else (parseMembers fuel r).map fun (kvs, r') => (.obj kvs, r')
    else if c = '-' then
      if (scanDigits r).1.isEmpty then none
      else some (.num (-(digitsVal (scanDigits r).1) : Int), (scanDigits r).2)
    else if c.isDigit then
      some (.num (digitsVal (scanDigits (c :: r)).1 : Int), (scanDigits (c :: r)).2)
    else if c = 'n' then
      match r with
      | 'u' :: 'l' :: 'l' :: r' => some (.null, r')
      | _ => none
    else if c = 't' then
      match r with
      | 'r' :: 'u' :: 'e' :: r' => some (.bool true, r')
      | _ => none
    else if c = 'f' then
      match r with
      | 'a' :: 'l' :: 's' :: 'e' :: r' => some (.bool false, r')
      | _ => none
    else none

/-- Parse one or more comma-separated array elements up to the closing `]`. -/
def parseItems : Nat → List Char → Option (List Json × List Char)
  | 0, _ => none
  | fuel + 1, cs =>
    match parseVal fuel cs with
    | none => none
    | some (v, r) =>
      match r with
      | ']' :: r' => some ([v], r')
      | ',' :: ' ' :: r' => (parseItems fuel r').map fun (xs, r'') => (v :: xs, r'')
      | _ => none

/-- Parse one or more comma-separated object members up to the closing `}`. -/
def parseMembers : Nat → List Char → Option (List (String × Json) × List Char)
  | 0, _ => none
  | fuel + 1, cs =>
    match cs with
    | '"' :: r =>
      match parseStrBody r with
      | none => none
      | some (k, r1) =>
        match r1 with
        | ':' :: ' ' :: r2 =>
          match parseVal fuel r2 with
          | none => none
          | some (v, r3) =>
            match r3 with
            | '}' :: r4 => some ([(⟨k⟩, v)], r4)
            | ',' :: ' ' :: r4 =>
              (parseMembers fuel r4).map fun (kvs, r5) => ((⟨k⟩, v) :: kvs, r5)
            | _ => none
        | _ => none
    | _ => none

end

/-- Model of `json.loads`: parse the whole text as one JSON value; `none`
models the `JSONDecodeError` raised on malformed text. -/
def loads (s : String) : Option Json :=
  match parseVal (s.length + 1) s.data with
  | some (v, []) => some v
  | _ => none

/-! ## Fuel bounds for the parser -/

mutual

/-- Nesting fuel sufficient for `parseVal` to consume `ppJson v`. -/
def needJ : Json → Nat
  | .null => 1
  | .bool _ => 1
  | .num _ => 1
  | .str _ => 1
  | .arr [] => 1
  | .arr (x :: xs) => needItems x xs + 1
  | .obj [] => 1
  | .obj (kv :: kvs) => needMembers kv kvs + 1
termination_by v => sizeOf v
decreasing_by all_goals simp_wf

/-- Fuel sufficient for `parseItems` on `ppItems x xs ++ ']' :: rest`. -/
def needItems : Json → List Json → Nat
  | x, [] => needJ x + 1
  | x, y :: ys => needJ x + needItems y ys + 1
termination_by x ys => 1 + sizeOf x + sizeOf ys
decreasing_by all_goals (simp_wf <;> omega)

/-- Fuel sufficient for `parseMembers` on `ppMembers kv kvs ++ '}' :: rest`. -/
def needMembers : String × Json → List (String × Json) → Nat
  | (_, v), [] => needJ v + 1
  | (_, v), kv :: kvs => needJ v + needMembers kv kvs + 1
termination_by kv kvs => 1 + sizeOf kv + sizeOf kvs
decreasing_by all_goals (simp_wf <;> omega)

end

/-! ## Data model

`TaskStatus` and `ScheduledTask` are declared in `synapse/types.py`, outside
this file's sources; they are modelled from the spec's data-model section. -/

/-- Modelled from the spec: `TaskStatus`, the lifecycle enum
`{ scheduled, active, complete, failed }` stored as text. -/
inductive TaskStatus where
  | scheduled : TaskStatus
  | active : TaskStatus
  | complete : TaskStatus
  | failed : TaskStatus
deriving DecidableEq

/-- The stored text of a status (the str-enum's value). -/
def TaskStatus.toStr : TaskStatus → String
  | .scheduled => "scheduled"
  | .active => "active"
  | .complete => "complete"
  | .failed => "failed"

/-- Model of the `TaskStatus(...)` enum constructor used by
`_convert_row_to_task`: `none` models the `ValueError` raised on a string
that is not one of the four enum values. -/
def TaskStatus.ofStr (s : String) : Option TaskStatus :=
  if s = "scheduled" then some .scheduled
  else if s = "active" then some .active
  else if s = "complete" then some .complete
  else if s = "failed" then some .failed
  else none

/-- Modelled from the spec: `ScheduledTask`, the sole entity of the data
model (attribute table of the spec). -/
structure ScheduledTask where
  id : String
  action : String
  status : TaskStatus
  timestamp : Int
  resource_id : Option String
  params : Option Json
  result : Option Json
  error : Option String

/-- One stored row of the `scheduled_tasks` table (its non-key columns);
`params` / `result` hold the JSON-encoded text, `none` is SQL NULL. -/
structure DbRow where
  action : String
  status : String
  timestamp : Int
  resource_id : Option String
  params : Option String
  result : Option String
  error : Option String

/-- The `scheduled_tasks` table: rows keyed by the `id` primary key. -/
abbrev Db := List (String × DbRow)

/-! ## Database pool primitives

These live in `synapse/storage/database.py`, outside this file's sources;
they are modelled from the spec's "consumed capability" section. -/

/-- Modelled from the spec: the "insert or replace by key" primitive
(`simple_upsert`) — replace the row with the given key, or insert it. -/
def simple_upsert (id : String) (row : DbRow) : Db → Db
  | [] => [(id, row)]
  | (k, r) :: rest =>
    if k = id then (k, row) :: rest
    else (k, r) :: simple_upsert id row rest

/-- Modelled from the spec: the "conditional field-set update by key"
primitive (`simple_update`) — apply `upd` to every row with the given key,
returning the new table and the affected-row count. -/
def simple_update (id : String) (upd : DbRow → DbRow) : Db → Db × Nat
  | [] => ([], 0)
  | (k, r) :: rest =>
    let (rest', n) := simple_update id upd rest
    if k = id then ((k, upd r) :: rest', n + 1)
    else ((k, r) :: rest', n)

/-- Modelled from the spec: the keyed single-row lookup primitive
(`simple_select_one` with `allow_none=True`). -/
def simple_select_one (id : String) : Db → Option DbRow
  | [] => none
  | (k, r) :: rest => if k = id then some r else simple_select_one id rest

/-- Modelled from the spec: the "delete by key" primitive (`simple_delete`). -/
def simple_delete (id : String) (db : Db) : Db :=
  db.filter fun p => p.1 != id

/-- Modelled from the spec: the truth value of the SQL clause built by
`make_in_list_sql_clause` for a column holding `col` — an empty value list
yields `column IS NULL`, a non-empty one yields membership (`IN`). -/
def make_in_list_sql_clause (values : List String) (col : Option String) : Bool :=
  if values.isEmpty then col.isNone
  else
    match col with
    | some v => values.contains v
    | none => false

/-! ## The store's operations (`task_scheduler.py`) -/

/-- Read failure raised while deserializing a row: an out-of-enum status
string (`ValueError` from `TaskStatus(...)`) or malformed JSON text
(`JSONDecodeError` from `json.loads`). -/
inductive ReadError where
  | badStatus : ReadError
  | badJson : ReadError
deriving DecidableEq

/-- Decode an optional JSON-text column: NULL stays absent, text must parse
(the `if row[...] is not None: json.loads(...)` steps of
`_convert_row_to_task`). -/
def decodeOptJson : Option String → Option (Option Json)
  | none => some none
  | some s => (loads s).map some

/-- `_convert_row_to_task`: rebuild a `ScheduledTask` from a fetched row
(status first, then `params`, then `result`, as in the source). -/
def convert_row_to_task (id : String) (row : DbRow) : Except ReadError ScheduledTask :=
  match TaskStatus.ofStr row.status with
  | none => .error .badStatus
  | some st =>
    match decodeOptJson row.params with
    | none => .error .badJson
    | some ps =>
      match decodeOptJson row.result with
      | none => .error .badJson
      | some res =>
        .ok { id := id, action := row.action, status := st, timestamp := row.timestamp,
              resource_id := row.resource_id, params := ps, result := res, error := row.error }

/-- The list comprehension `[_convert_row_to_task(row) for row in rows]`:
the first raising conversion aborts the whole read. -/
def convertRows : List (String × DbRow) → Except ReadError (List ScheduledTask)
  | [] => .ok []
  | (k, row) :: rest =>
    match convert_row_to_task k row with
    | .error e => .error e
    | .ok t =>
      match convertRows rest with
      | .error e => .error e
      | .ok ts => .ok (t :: ts)

/-- The WHERE clause assembled by `get_scheduled_tasks_txn`: one
`make_in_list_sql_clause` per provided argument, ANDed (`none` = argument
not provided = no clause). -/
def rowSelected (actions resource_ids : Option (List String))
    (statuses : Option (List String)) (row : DbRow) : Bool :=
  (match actions with
   | none => true
   | some vs => make_in_list_sql_clause vs (some row.action)) &&
  (match resource_ids with
   | none => true
   | some vs => make_in_list_sql_clause vs row.resource_id) &&
  (match statuses with
   | none => true
   | some vs => make_in_list_sql_clause vs (some row.status))

/-- `get_scheduled_tasks`: fetch the rows selected by the assembled WHERE
clause and deserialize each. -/
def get_scheduled_tasks (actions resource_ids : Option (List String))
    (statuses : Option (List TaskStatus)) (db : Db) :
    Except ReadError (List ScheduledTask) :=
  convertRows
    (db.filter fun p =>
      rowSelected actions resource_ids (statuses.map (List.map TaskStatus.toStr)) p.2)

/-- The values dict written by `upsert_scheduled_task`: every column, with
`params` / `result` JSON-encoded when present and NULL when absent. -/
def taskRow (task : ScheduledTask) : DbRow :=
  { action := task.action
    status := task.status.toStr
    timestamp := task.timestamp
    resource_id := task.resource_id
    params := task.params.map dumps
    result := task.result.map dumps
    error := task.error }

/-- `upsert_scheduled_task`: `simple_upsert` keyed by `task.id` writing
`taskRow task`. -/
def upsert_scheduled_task (task : ScheduledTask) (db : Db) : Db :=
  simple_upsert task.id (taskRow task) db

/-- The `updatevalues` dict of `update_scheduled_task` applied to a stored
row: each argument updates its column only when provided (`is not None`),
with a provided `result` JSON-encoded. -/
def applyUpdate (timestamp : Option Int) (status : Option TaskStatus)
    (result : Option Json) (error : Option String) (row : DbRow) : DbRow :=
  let row1 := match timestamp with
    | none => row
    | some ts => { row with timestamp := ts }
  let row2 := match status with
    | none => row1
    | some st => { row1 with status := st.toStr }
  let row3 := match result with
    | none => row2
    | some r => { row2 with result := some (dumps r) }
  match error with
  | none => row3
  | some e => { row3 with error := some e }

/-- `update_scheduled_task`: `simple_update` keyed by `id` with the
assembled `updatevalues`; returns the table and `nb_rows > 0`. -/
def update_scheduled_task (id : String) (timestamp : Option Int)
    (status : Option TaskStatus) (result : Option Json) (error : Option String)
    (db : Db) : Db × Bool :=
  let (db', n) := simple_update id (applyUpdate timestamp status result error) db
  (db', n > 0)

/-- `get_scheduled_task`: `simple_select_one` by `id` with `allow_none`,
converting the row when found. -/
def get_scheduled_task (id : String) (db : Db) : Except ReadError (Option ScheduledTask) :=
  match simple_select_one id db with
  | none => .ok none
  | some row => (convert_row_to_task id row).map some

/-- `delete_scheduled_task`: `simple_delete` keyed by `id`. -/
def delete_scheduled_task (id : String) (db : Db) : Db :=
  simple_delete id db

/-! ## Specification-side predicates (for the filter claims) -/

/-- The spec's three-state filter semantics, stated on one column value:
absent filter → always true; empty collection → the column must be
NULL/absent; non-empty collection → membership. -/
def filterMatch (f : Option (List String)) (v : Option String) : Bool :=
  match f with
  | none => true
  | some vals =>
    if vals.isEmpty then v.isNone
    else
      match v with
      | some x => vals.contains x
      | none => false

/-- The spec's three-state filter semantics on a whole task: the three
filters ANDed.  The `status` column is never NULL, so an empty `statuses`
collection matches no task; a non-empty one is set membership. -/
def taskMatches (actions resource_ids : Option (List String))
    (statuses : Option (List TaskStatus)) (t : ScheduledTask) : Bool :=
  filterMatch actions (some t.action) &&
  filterMatch resource_ids t.resource_id &&
  (match statuses with
   | none => true
   | some l => if l.isEmpty then false else l.contains t.status)

/-- "Provided value wins, otherwise keep the stored one": the effect of one
optional `update_scheduled_task` argument on its column. -/
def keepOr {α : Type} (new : Option α) (old : Option α) : Option α :=
  match new with
  | none => old
  | some x => some x

/-- One `update_scheduled_task` call (for iterating sequences of updates). -/
structure UpdCall where
  id : String
  timestamp : Option Int
  status : Option TaskStatus
  result : Option Json
  error : Option String

/-- Run a sequence of `update_scheduled_task` calls left to right. -/
def applyCalls (calls : List UpdCall) (db : Db) : Db :=
  calls.foldl
    (fun db c => (update_scheduled_task c.id c.timestamp c.status c.result c.error db).1)
    db

/-! ## Concrete sample data -/

/-- The spec's example parameters payload. -/
def sampleParams : Json := .obj [("before", .num 500)]

/-- The spec's example task `t1`. -/
def sampleTask : ScheduledTask :=
  { id := "t1", action := "purge_history", status := .scheduled, timestamp := 1000,
    resource_id := some "room1", params := some sampleParams, result := none, error := none }

/-- A second sample task, with no resource and a recorded error. -/
def sampleTask2 : ScheduledTask :=
  { id := "t2", action := "shutdown_room", status := .active, timestamp := 2000,
    resource_id := none, params := none, result := some (.obj [("x", .num 1)]),
    error := some "boom" }

/-- A two-row sample table. -/
def sampleDb : Db := [(sampleTask.id, taskRow sampleTask), (sampleTask2.id, taskRow sampleTask2)]

/-- A stored row whose `params` text is not well-formed JSON. -/
def badJsonRow : DbRow :=
  { action := "purge_history", status := "scheduled", timestamp := 0,
    resource_id := none, params := some "\x7b", result := none, error := none }

/-- A stored row whose `status` text is outside the enum. -/
def badStatusRow : DbRow :=
  { action := "purge_history", status := "pending", timestamp := 0,
    resource_id := none, params := none, result := none, error := none }

/-- A one-row table holding the malformed-JSON row. -/
def badDb : Db := [("tb", badJsonRow)]

/-- A one-row table holding the out-of-enum-status row. -/
def badStatusDb : Db := [("ts", badStatusRow)]

/-- A sample update call: mark `t2` complete. -/
def sampleCall : UpdCall :=
  { id := "t2", timestamp := none, status := some .complete, result := none, error := none }

/-! ## Lemmas: decimal digits -/

theorem digitChar_toNat {d : Nat} (h : d < 10) : (Nat.digitChar d).toNat - 48 = d := by
  interval_cases d <;> decide

theorem digitChar_isDigit {d : Nat} (h : d < 10) : (Nat.digitChar d).isDigit = true := by
  interval_cases d <;> decide

theorem printNat_ne_nil (n : Nat) : printNat n ≠ [] := by
  unfold printNat
  split
  · simp
  · simp [Nat.digits_ne_nil_iff_ne_zero, *]

theorem printNat_all_digits (n : Nat) : ∀ c ∈ printNat n, c.isDigit = true := by
  intro c hc
  unfold printNat at hc
  split at hc
  · simp at hc
    simp [hc]
  · simp only [List.mem_reverse, List.mem_map] at hc
    obtain ⟨d, hd, rfl⟩ := hc
    exact digitChar_isDigit (Nat.digits_lt_base (by norm_num) hd)

theorem scanDigits_append (ds rest : List Char)
    (hd : ∀ c ∈ ds, c.isDigit = true) (hr : headNotDigit rest = true) :
    scanDigits (ds ++ rest) = (ds, rest) := by
  induction ds with
  | nil =>
    simp only [List.nil_append]
    cases rest with
    | nil => rfl
    | cons c cs =>
      simp [headNotDigit] at hr
      simp [scanDigits, hr]
  | cons c cs ih =>
    have hc : c.isDigit = true := hd c (by simp)
    have ih' := ih (fun x hx => hd x (by simp [hx]))
    simp [scanDigits, hc, ih']

theorem foldr_digitChar (l : List Nat) (h : ∀ d ∈ l, d < 10) :
    l.foldr (fun d a => a * 10 + ((Nat.digitChar d).toNat - 48)) 0 = Nat.ofDigits 10 l := by
  induction l with
  | nil => simp [Nat.ofDigits]
  | cons d t ih =>
    have hd : d < 10 := h d (by simp)
    simp only [List.foldr_cons, Nat.ofDigits,
      ih (fun x hx => h x (by simp [hx])), digitChar_toNat hd]
    push_cast
    ring

theorem digitsVal_printNat (n : Nat) : digitsVal (printNat n) = n := by
  unfold printNat digitsVal
  split
  · simp_all
  · rw [List.foldl_reverse, List.foldr_map]
    have := foldr_digitChar (Nat.digits 10 n)
      (fun d hd => Nat.digits_lt_base (by norm_num) hd)
    simp only [this]
    exact_mod_cast Nat.ofDigits_digits 10 n

/-! ## Lemmas: string escaping -/

theorem parseStrBody_escape (s rest : List Char) :
    parseStrBody (escapeChars s ++ '"' :: rest) = some (s, rest) := by
  induction s with
  | nil =>
    rw [escapeChars, List.nil_append, parseStrBody.eq_def]
    simp
  | cons c cs ih =>
    by_cases hc : c = '"' ∨ c = '\\'
    · rw [escapeChars, if_pos hc, List.cons_append, List.cons_append, parseStrBody.eq_def]
      have h1 : ('\\' : Char) ≠ '"' := by decide
      simp only [if_neg h1, if_pos rfl, if_pos hc, ih]
      rfl
    · push_neg at hc
      rw [escapeChars, if_neg (by tauto : ¬(c = '"' ∨ c = '\\')), List.cons_append,
        parseStrBody.eq_def]
      simp only [if_neg hc.1, if_neg hc.2, ih]
      rfl

/-! ## Lemmas: parser round trip -/

theorem string_mk_data (s : String) : String.mk s.data = s := rfl

theorem parseVal_digit (fuel : Nat) (c : Char) (r ds r' : List Char)
    (h : c.isDigit = true) (hs : scanDigits (c :: r) = (ds, r')) :
    parseVal (fuel + 1) (c :: r) = some (.num (digitsVal ds : Int), r') := by
  have h1 : c ≠ '"' := fun hx => absurd (hx ▸ h) (by decide)
  have h2 : c ≠ '[' := fun hx => absurd (hx ▸ h) (by decide)
  have h3 : c ≠ '{' := fun hx => absurd (hx ▸ h) (by decide)
  have h4 : c ≠ '-' := fun hx => absurd (hx ▸ h) (by decide)
  rw [parseVal.eq_def]
  simp only [if_neg h1, if_neg h2, if_neg h3, if_neg h4, if_pos h, hs]

theorem ppItems_head (x : Json) (xs : List Json) :
    ∃ t, ppItems x xs = ppJson x ++ t := by
  cases xs with
  | nil => exact ⟨[], by simp [ppItems]⟩
  | cons y ys => exact ⟨',' :: ' ' :: ppItems y ys, by simp [ppItems]⟩

theorem ppMembers_head (kv : String × Json) (kvs : List (String × Json)) :
    ∃ t, ppMembers kv kvs = '"' :: t := by
  obtain ⟨k, v⟩ := kv
  cases kvs with
  | nil => exact ⟨escapeChars k.data ++ ['"'] ++ ':' :: ' ' :: ppJson v, by simp [ppMembers, ppStr]⟩
  | cons kv2 kvs2 =>
    exact ⟨escapeChars k.data ++ ['"'] ++ ':' :: ' ' :: ppJson v ++ ',' :: ' ' :: ppMembers kv2 kvs2,
      by simp [ppMembers, ppStr]⟩

theorem ppJson_head (v : Json) : ∃ c t, ppJson v = c :: t ∧ c ≠ ']' ∧ c ≠ '}' := by
  cases v with
  | null => exact ⟨'n', ['u', 'l', 'l'], by simp [ppJson], by decide, by decide⟩
  | bool b => cases b with
    | true => exact ⟨'t', ['r', 'u', 'e'], by simp [ppJson], by decide, by decide⟩
    | false => exact ⟨'f', ['a', 'l', 's', 'e'], by simp [ppJson], by decide, by decide⟩
  | num n =>
    by_cases hn : n < 0
    · exact ⟨'-', printNat n.natAbs, by simp [ppJson, ppInt, hn], by decide, by decide⟩
    · obtain ⟨c, t, hct⟩ := List.exists_cons_of_ne_nil (printNat_ne_nil n.natAbs)
      have hc : c.isDigit = true := printNat_all_digits n.natAbs c (by rw [hct]; simp)
      refine ⟨c, t, by simp [ppJson, ppInt, hn, hct], ?_, ?_⟩
      · exact fun hx => absurd (hx ▸ hc) (by decide)
      · exact fun hx => absurd (hx ▸ hc) (by decide)
  | str s => exact ⟨'"', escapeChars s.data ++ ['"'], by simp [ppJson, ppStr], by decide, by decide⟩
  | arr xs => cases xs with
    | nil => exact ⟨'[', [']'], by simp [ppJson], by decide, by decide⟩
    | cons x xs => exact ⟨'[', ppItems x xs ++ [']'], by simp [ppJson], by decide, by decide⟩
  | obj kvs => cases kvs with
    | nil => exact ⟨'{', ['}'], by simp [ppJson], by decide, by decide⟩
    | cons kv kvs => exact ⟨'{', ppMembers kv kvs ++ ['}'], by simp [ppJson], by decide, by decide⟩

theorem needJ_pos (v : Json) : 1 ≤ needJ v := by
  cases v with
  | null => simp [needJ]
  | bool b => simp [needJ]
  | num n => simp [needJ]
  | str s => simp [needJ]
  | arr xs => cases xs <;> simp [needJ]
  | obj kvs => cases kvs <;> simp [needJ]

theorem needItems_pos (x : Json) (xs : List Json) : 1 ≤ needItems x xs := by
  cases xs <;> simp [needItems]

theorem needMembers_pos (kv : String × Json) (kvs : List (String × Json)) :
    1 ≤ needMembers kv kvs := by
  obtain ⟨k, v⟩ := kv
  cases kvs <;> simp [needMembers]

theorem roundtrip_parts : ∀ fuel : Nat,
    (∀ v rest, needJ v ≤ fuel → headNotDigit rest = true →
      parseVal fuel (ppJson v ++ rest) = some (v, rest)) ∧
    (∀ x xs rest, needItems x xs ≤ fuel →
      parseItems fuel (ppItems x xs ++ ']' :: rest) = some (x :: xs, rest)) ∧
    (∀ kv kvs rest, needMembers kv kvs ≤ fuel →
      parseMembers fuel (ppMembers kv kvs ++ '}' :: rest) = some (kv :: kvs, rest)) := by
  intro fuel
  induction fuel with
  | zero =>
    refine ⟨fun v rest hf _ => absurd hf (by have := needJ_pos v; omega),
            fun x xs rest hf => absurd hf (by have := needItems_pos x xs; omega),
            fun kv kvs rest hf => absurd hf (by have := needMembers_pos kv kvs; omega)⟩
  | succ fuel ih =>
    obtain ⟨ihV, ihI, ihM⟩ := ih
    refine ⟨?_, ?_, ?_⟩
    · intro v rest hf hr
      cases v with
      | null =>
        simp only [ppJson, List.cons_append, List.nil_append]
        rw [parseVal.eq_def]; simp
      | bool b =>
        cases b with
        | false =>
          simp only [ppJson, List.cons_append, List.nil_append]
          rw [parseVal.eq_def]; simp
        | true =>
          simp only [ppJson, List.cons_append, List.nil_append]
          rw [parseVal.eq_def]; simp
      | num n =>
        by_cases hn : n < 0
        · have hm := printNat_ne_nil n.natAbs
          obtain ⟨d, t, hdt⟩ := List.exists_cons_of_ne_nil hm
          have hsc : scanDigits (printNat n.natAbs ++ rest) = (printNat n.natAbs, rest) :=
            scanDigits_append _ _ (printNat_all_digits _) hr
          have hne : (printNat n.natAbs).isEmpty = false := by rw [hdt]; rfl
          simp only [ppJson, ppInt, if_pos hn, List.cons_append]
          rw [parseVal.eq_def]
          simp [hsc, hne, digitsVal_printNat]
          simp [abs_of_neg hn]
        · obtain ⟨c, t, hct⟩ := List.exists_cons_of_ne_nil (printNat_ne_nil n.natAbs)
          have hc : c.isDigit = true := printNat_all_digits _ c (by rw [hct]; simp)
          have hsc : scanDigits (c :: (t ++ rest)) = (c :: t, rest) := by
            rw [← List.cons_append, ← hct]
            exact scanDigits_append _ _ (printNat_all_digits _) hr
          have hdig := parseVal_digit fuel c (t ++ rest) (c :: t) rest hc hsc
          simp only [ppJson, ppInt, if_neg hn]
          rw [hct, List.cons_append, hdig]
          have h2 : digitsVal (c :: t) = n.natAbs := by rw [← hct]; exact digitsVal_printNat _
          have h3 : ((digitsVal (c :: t) : Nat) : Int) = n := by rw [h2]; omega
          rw [h3]
      | str s =>
        simp only [ppJson, ppStr, List.cons_append, List.append_assoc, List.singleton_append]
        rw [parseVal.eq_def]
        simp [parseStrBody_escape, string_mk_data]
      | arr xs =>
        cases xs with
        | nil =>
          simp only [ppJson, List.cons_append, List.nil_append]
          rw [parseVal.eq_def]; simp
        | cons x xs' =>
          obtain ⟨tl, htl⟩ := ppItems_head x xs'
          obtain ⟨c, ct, hct, hc1, hc2⟩ := ppJson_head x
          have hfi : needItems x xs' ≤ fuel := by simp [needJ] at hf; omega
          have hitems := ihI x xs' rest hfi
          simp only [ppJson, List.cons_append, List.append_assoc, List.singleton_append]
          rw [parseVal.eq_def]
          have hhead : (ppItems x xs').head? = some c := by rw [htl, hct]; rfl
          simp [hhead, hc1, hitems]
      | obj kvs =>
        cases kvs with
        | nil =>
          simp only [ppJson, List.cons_append, List.nil_append]
          rw [parseVal.eq_def]; simp
        | cons kv kvs' =>
          obtain ⟨tl, htl⟩ := ppMembers_head kv kvs'
          have hfm : needMembers kv kvs' ≤ fuel := by simp [needJ] at hf; omega
          have hmem := ihM kv kvs' rest hfm
          simp only [ppJson, List.cons_append, List.append_assoc, List.singleton_append]
          rw [parseVal.eq_def]
          have hhead : (ppMembers kv kvs').head? = some '"' := by rw [htl]; rfl
          simp [hhead, hmem]
    · intro x xs rest hf
      have hfx : needJ x ≤ fuel := by cases xs <;> simp [needItems] at hf <;> omega
      cases xs with
      | nil =>
        have hv := ihV x (']' :: rest) hfx (by simp [headNotDigit])
        simp only [ppItems]
        rw [parseItems.eq_def]
        simp [hv]
      | cons y ys =>
        have hfyys : needItems y ys ≤ fuel := by simp [needItems] at hf; omega
        have hv := ihV x (',' :: ' ' :: (ppItems y ys ++ ']' :: rest)) hfx
          (by simp [headNotDigit])
        have hrec := ihI y ys rest hfyys
        simp only [ppItems, List.append_assoc, List.cons_append]
        rw [parseItems.eq_def]
        simp [hv, hrec]
    · intro kv kvs rest hf
      obtain ⟨k, v⟩ := kv
      have hfv : needJ v ≤ fuel := by cases kvs <;> simp [needMembers] at hf <;> omega
      cases kvs with
      | nil =>
        have hv := ihV v ('}' :: rest) hfv (by simp [headNotDigit])
        simp only [ppMembers, ppStr, List.append_assoc, List.cons_append, List.singleton_append]
        rw [parseMembers.eq_def]
        simp [parseStrBody_escape, hv, string_mk_data]
      | cons kv2 kvs2 =>
        have hf2 : needMembers kv2 kvs2 ≤ fuel := by simp [needMembers] at hf; omega
        have hv := ihV v (',' :: ' ' :: (ppMembers kv2 kvs2 ++ '}' :: rest)) hfv
          (by simp [headNotDigit])
        have hrec := ihM kv2 kvs2 rest hf2
        simp only [ppMembers, ppStr, List.append_assoc, List.cons_append, List.singleton_append]
        rw [parseMembers.eq_def]
        simp [parseStrBody_escape, hv, hrec, string_mk_data]

theorem json_sizeOf_pos (v : Json) : 1 ≤ sizeOf v := by
  cases v <;> simp

theorem need_le_parts : ∀ N : Nat,
    (∀ v : Json, sizeOf v ≤ N → needJ v ≤ (ppJson v).length) ∧
    (∀ (x : Json) (xs : List Json), sizeOf x + sizeOf xs ≤ N →
      needItems x xs ≤ (ppItems x xs).length + 1) ∧
    (∀ (kv : String × Json) (kvs : List (String × Json)), sizeOf kv + sizeOf kvs ≤ N →
      needMembers kv kvs ≤ (ppMembers kv kvs).length + 1) := by
  intro N
  induction N with
  | zero =>
    refine ⟨fun v hv => absurd hv (by have := json_sizeOf_pos v; omega),
            fun x xs hv => absurd hv (by have := json_sizeOf_pos x; omega),
            fun kv kvs hv => ?_⟩
    · obtain ⟨k, v⟩ := kv
      exact absurd hv (by simp)
  | succ N ih =>
    obtain ⟨ihV, ihI, ihM⟩ := ih
    refine ⟨?_, ?_, ?_⟩
    · intro v hv
      cases v with
      | null => simp [needJ, ppJson]
      | bool b => cases b <;> simp [needJ, ppJson]
      | num n =>
        obtain ⟨c, t, hct, -, -⟩ := ppJson_head (.num n)
        simp only [ppJson] at hct
        simp [needJ, ppJson, hct]
      | str s => simp [needJ, ppJson, ppStr]
      | arr xs =>
        cases xs with
        | nil => simp [needJ, ppJson]
        | cons x xs' =>
          have hb : sizeOf x + sizeOf xs' ≤ N := by simp at hv; omega
          have := ihI x xs' hb
          simp [needJ, ppJson]
          omega
      | obj kvs =>
        cases kvs with
        | nil => simp [needJ, ppJson]
        | cons kv kvs' =>
          have hb : sizeOf kv + sizeOf kvs' ≤ N := by simp at hv; omega
          have := ihM kv kvs' hb
          simp [needJ, ppJson]
          omega
    · intro x xs hv
      cases xs with
      | nil =>
        have hb : sizeOf x ≤ N := by simp at hv; omega
        have := ihV x hb
        simp [needItems, ppItems]
        omega
      | cons y ys =>
        have hx : sizeOf x ≤ N := by
          have := json_sizeOf_pos y
          simp at hv; omega
        have hb : sizeOf y + sizeOf ys ≤ N := by
          have := json_sizeOf_pos x
          simp at hv; omega
        have h1 := ihV x hx
        have h2 := ihI y ys hb
        simp [needItems, ppItems]
        omega
    · intro kv kvs hv
      obtain ⟨k, v⟩ := kv
      cases kvs with
      | nil =>
        have hb : sizeOf v ≤ N := by simp at hv; omega
        have := ihV v hb
        simp [needMembers, ppMembers, ppStr]
        omega
      | cons kv2 kvs2 =>
        have hx : sizeOf v ≤ N := by
          obtain ⟨k2, v2⟩ := kv2
          have := json_sizeOf_pos v2
          simp at hv; omega
        have hb : sizeOf kv2 + sizeOf kvs2 ≤ N := by
          have := json_sizeOf_pos v
          simp at hv; omega
        have h1 := ihV v hx
        have h2 := ihM kv2 kvs2 hb
        simp [needMembers, ppMembers, ppStr]
        omega

theorem needJ_le (v : Json) : needJ v ≤ (ppJson v).length :=
  (need_le_parts (sizeOf v)).1 v le_rfl

/-- `json.loads` inverts `json.dumps`: the round trip is lossless. -/
theorem loads_dumps (v : Json) : loads (dumps v) = some v := by
  have h1 := (roundtrip_parts ((ppJson v).length + 1)).1 v []
    (le_trans (needJ_le v) (by omega)) rfl
  rw [List.append_nil] at h1
  unfold loads dumps
  have hlen : (String.mk (ppJson v)).length = (ppJson v).length := rfl
  have hdata : (String.mk (ppJson v)).data = ppJson v := rfl
  rw [hlen, hdata, h1]

/-! ## Lemmas: status enum -/

theorem ofStr_toStr (st : TaskStatus) : TaskStatus.ofStr st.toStr = some st := by
  cases st <;> rfl

theorem ofStr_some {s : String} {st : TaskStatus}
    (h : TaskStatus.ofStr s = some st) : s = st.toStr := by
  unfold TaskStatus.ofStr at h
  split_ifs at h with h1 h2 h3 h4
  · injection h with h'; subst h'; simp [h1, TaskStatus.toStr]
  · injection h with h'; subst h'; simp [h2, TaskStatus.toStr]
  · injection h with h'; subst h'; simp [h3, TaskStatus.toStr]
  · injection h with h'; subst h'; simp [h4, TaskStatus.toStr]

theorem toStr_injective : Function.Injective TaskStatus.toStr := by
  intro a b h
  cases a <;> cases b <;> simp_all [TaskStatus.toStr]

theorem contains_map_toStr (l : List TaskStatus) (st : TaskStatus) :
    (l.map TaskStatus.toStr).contains st.toStr = l.contains st := by
  induction l with
  | nil => rfl
  | cons a t ih =>
    simp only [List.map_cons, List.contains_cons, ih]
    by_cases hab : a = st
    · subst hab; simp
    · have hts : TaskStatus.toStr a ≠ TaskStatus.toStr st := fun hc => hab (toStr_injective hc)
      have e1 : (st.toStr == a.toStr) = false := beq_eq_false_iff_ne.mpr fun hc => hts hc.symm
      have e2 : (st == a) = false := beq_eq_false_iff_ne.mpr fun hc => hab hc.symm
      simp [e1, e2]

/-! ## Lemmas: row conversion -/

theorem convert_ok_fields {k : String} {row : DbRow} {t : ScheduledTask}
    (h : convert_row_to_task k row = .ok t) :
    TaskStatus.ofStr row.status = some t.status ∧ decodeOptJson row.params = some t.params ∧
    decodeOptJson row.result = some t.result ∧ t.id = k ∧ t.action = row.action ∧
    t.timestamp = row.timestamp ∧ t.resource_id = row.resource_id ∧ t.error = row.error := by
  unfold convert_row_to_task at h
  cases hst : TaskStatus.ofStr row.status with
  | none => rw [hst] at h; simp at h
  | some st =>
    rw [hst] at h
    cases hp : decodeOptJson row.params with
    | none => rw [hp] at h; simp at h
    | some ps =>
      rw [hp] at h
      cases hq : decodeOptJson row.result with
      | none => rw [hq] at h; simp at h
      | some res =>
        rw [hq] at h
        simp only [Except.ok.injEq] at h
        subst h
        simp [hst, hp, hq]

theorem convert_ok_build (k : String) (row : DbRow) (st : TaskStatus)
    (ps res : Option Json)
    (hst : TaskStatus.ofStr row.status = some st)
    (hp : decodeOptJson row.params = some ps)
    (hq : decodeOptJson row.result = some res) :
    convert_row_to_task k row =
      .ok { id := k, action := row.action, status := st, timestamp := row.timestamp,
            resource_id := row.resource_id, params := ps, result := res, error := row.error } := by
  unfold convert_row_to_task
  rw [hst, hp, hq]

theorem convert_taskRow (task : ScheduledTask) :
    convert_row_to_task task.id (taskRow task) = .ok task := by
  have hst : TaskStatus.ofStr (taskRow task).status = some task.status := by
    simp [taskRow, ofStr_toStr]
  have hp : decodeOptJson (taskRow task).params = some task.params := by
    cases hc : task.params with
    | none => simp [taskRow, hc, decodeOptJson]
    | some p => simp [taskRow, hc, decodeOptJson, loads_dumps]
  have hq : decodeOptJson (taskRow task).result = some task.result := by
    cases hc : task.result with
    | none => simp [taskRow, hc, decodeOptJson]
    | some p => simp [taskRow, hc, decodeOptJson, loads_dumps]
  rw [convert_ok_build task.id (taskRow task) task.status task.params task.result hst hp hq]
  rfl

/-! ## Lemmas: database primitives -/

theorem select_upsert (id : String) (row : DbRow) (db : Db) :
    simple_select_one id (simple_upsert id row db) = some row := by
  induction db with
  | nil => simp [simple_upsert, simple_select_one]
  | cons p rest ih =>
    obtain ⟨k, r⟩ := p
    by_cases hk : k = id
    · simp [simple_upsert, hk, simple_select_one]
    · simp [simple_upsert, hk, simple_select_one, ih]

theorem select_update_hit {id : String} {db : Db} {row : DbRow} (f : DbRow → DbRow)
    (h : simple_select_one id db = some row) :
    simple_select_one id (simple_update id f db).1 = some (f row) ∧
    0 < (simple_update id f db).2 := by
  induction db with
  | nil => simp [simple_select_one] at h
  | cons p rest ih =>
    obtain ⟨k, r⟩ := p
    by_cases hk : k = id
    · subst hk
      simp [simple_select_one] at h
      subst h
      simp [simple_update, simple_select_one]
    · simp [simple_select_one, hk] at h
      have := ih h
      simp [simple_update, simple_select_one, hk]
      exact this

theorem update_missing {id : String} {db : Db}
    (h : simple_select_one id db = none) (f : DbRow → DbRow) :
    simple_update id f db = (db, 0) := by
  induction db with
  | nil => simp [simple_update]
  | cons p rest ih =>
    obtain ⟨k, r⟩ := p
    by_cases hk : k = id
    · subst hk; simp [simple_select_one] at h
    · simp [simple_select_one, hk] at h
      simp [simple_update, hk, ih h]

theorem select_update_other {id id' : String} (hne : id ≠ id') (f : DbRow → DbRow) (db : Db) :
    simple_select_one id (simple_update id' f db).1 = simple_select_one id db := by
  induction db with
  | nil => simp [simple_update, simple_select_one]
  | cons p rest ih =>
    obtain ⟨k, r⟩ := p
    by_cases hk : k = id'
    · subst hk
      have hki : k ≠ id := fun hc => hne hc.symm
      simp [simple_update, simple_select_one, hki, ih]
    · by_cases hki : k = id
      · subst hki
        simp [simple_update, hk, simple_select_one]
      · simp [simple_update, hk, simple_select_one, hki, ih]

theorem select_delete (id : String) (db : Db) :
    simple_select_one id (simple_delete id db) = none := by
  induction db with
  | nil => rfl
  | cons p rest ih =>
    obtain ⟨k, r⟩ := p
    by_cases hk : k = id
    · simp [simple_delete, hk] at ih ⊢
      exact ih
    · simp [simple_delete, List.filter_cons, hk, simple_select_one] at ih ⊢
      exact ih

theorem delete_idem (id : String) (db : Db) :
    simple_delete id (simple_delete id db) = simple_delete id db := by
  simp [simple_delete, List.filter_filter]

theorem delete_missing {id : String} {db : Db}
    (h : simple_select_one id db = none) : simple_delete id db = db := by
  induction db with
  | nil => rfl
  | cons p rest ih =>
    obtain ⟨k, r⟩ := p
    by_cases hk : k = id
    · subst hk; simp [simple_select_one] at h
    · simp [simple_select_one, hk] at h
      simp [simple_delete, hk] at ih ⊢
      exact ih h

/-! ## Lemmas: bulk conversion -/

theorem convertRows_cons_ok {k : String} {row : DbRow} {rest : Db} {ts : List ScheduledTask}
    (h : convertRows ((k, row) :: rest) = .ok ts) :
    ∃ t ts', convert_row_to_task k row = .ok t ∧ convertRows rest = .ok ts' ∧ ts = t :: ts' := by
  unfold convertRows at h
  cases hc : convert_row_to_task k row with
  | error e => rw [hc] at h; simp at h
  | ok t =>
    rw [hc] at h
    cases hr : convertRows rest with
    | error e => rw [hr] at h; simp at h
    | ok ts' =>
      rw [hr] at h
      simp only [Except.ok.injEq] at h
      exact ⟨t, ts', rfl, rfl, h.symm⟩

theorem convertRows_filter (P : String × DbRow → Bool) (Q : ScheduledTask → Bool)
    (hPQ : ∀ k row t, convert_row_to_task k row = .ok t → P (k, row) = Q t) :
    ∀ db ts, convertRows db = .ok ts → convertRows (db.filter P) = .ok (ts.filter Q) := by
  intro db
  induction db with
  | nil =>
    intro ts h
    unfold convertRows at h
    simp only [Except.ok.injEq] at h
    subst h
    rfl
  | cons p rest ih =>
    intro ts h
    obtain ⟨k, row⟩ := p
    obtain ⟨t, ts', hc, hr, hts⟩ := convertRows_cons_ok h
    subst hts
    rw [List.filter_cons]
    by_cases hp : P (k, row) = true
    · have hq : Q t = true := by rw [← hPQ k row t hc]; exact hp
      rw [if_pos hp]
      unfold convertRows
      rw [hc, ih ts' hr, List.filter_cons, if_pos hq]
    · have hq : ¬(Q t = true) := by rw [← hPQ k row t hc]; exact hp
      rw [if_neg hp, ih ts' hr, List.filter_cons, if_neg hq]

theorem convertRows_ids : ∀ (db : Db) (ts : List ScheduledTask),
    convertRows db = .ok ts → ts.map ScheduledTask.id = db.map Prod.fst := by
  intro db
  induction db with
  | nil =>
    intro ts h
    unfold convertRows at h
    simp only [Except.ok.injEq] at h
    subst h
    rfl
  | cons p rest ih =>
    intro ts h
    obtain ⟨k, row⟩ := p
    obtain ⟨t, ts', hc, hr, hts⟩ := convertRows_cons_ok h
    subst hts
    obtain ⟨-, -, -, hid, -⟩ := convert_ok_fields hc
    simp [ih ts' hr, hid]

theorem convertRows_mem_error : ∀ (db : Db) (k : String) (row : DbRow),
    (k, row) ∈ db → (∃ e, convert_row_to_task k row = .error e) →
    ∃ e, convertRows db = .error e := by
  intro db
  induction db with
  | nil => intro k row hmem _; simp at hmem
  | cons p rest ih =>
    intro k row hmem hbad
    obtain ⟨k', row'⟩ := p
    rcases List.mem_cons.mp hmem with heq | hmem'
    · obtain ⟨e, he⟩ := hbad
      injection heq with h1 h2
      subst h1; subst h2
      exact ⟨e, by unfold convertRows; rw [he]⟩
    · cases hc : convert_row_to_task k' row' with
      | error e => exact ⟨e, by unfold convertRows; rw [hc]⟩
      | ok t =>
        obtain ⟨e, he⟩ := ih k row hmem' hbad
        exact ⟨e, by unfold convertRows; rw [hc, he]⟩

/-! ## Lemmas: partial update -/

theorem applyUpdate_fields (ots : Option Int) (ost : Option TaskStatus)
    (ores : Option Json) (oerr : Option String) (row : DbRow) :
    (applyUpdate ots ost ores oerr row).action = row.action ∧
    (applyUpdate ots ost ores oerr row).params = row.params ∧
    (applyUpdate ots ost ores oerr row).resource_id = row.resource_id ∧
    (applyUpdate ots ost ores oerr row).timestamp = ots.getD row.timestamp ∧
    (applyUpdate ots ost ores oerr row).status =
      (ost.map TaskStatus.toStr).getD row.status ∧
    (applyUpdate ots ost ores oerr row).result = keepOr (ores.map dumps) row.result ∧
    (applyUpdate ots ost ores oerr row).error = keepOr oerr row.error := by
  cases ots <;> cases ost <;> cases ores <;> cases oerr <;> simp [applyUpdate, keepOr]

theorem update_scheduled_task_eq (id : String) (ots : Option Int) (ost : Option TaskStatus)
    (ores : Option Json) (oerr : Option String) (db : Db) :
    update_scheduled_task id ots ost ores oerr db =
      ((simple_update id (applyUpdate ots ost ores oerr) db).1,
       decide (0 < (simple_update id (applyUpdate ots ost ores oerr) db).2)) := rfl

theorem get_eq_none {id : String} {db : Db}
    (hs : simple_select_one id db = none) : get_scheduled_task id db = .ok none := by
  unfold get_scheduled_task
  rw [hs]

theorem get_eq_some {id : String} {db : Db} {row : DbRow}
    (hs : simple_select_one id db = some row) :
    get_scheduled_task id db = (convert_row_to_task id row).map some := by
  unfold get_scheduled_task
  rw [hs]

theorem get_ok_some {id : String} {db : Db} {t : ScheduledTask}
    (h : get_scheduled_task id db = .ok (some t)) :
    ∃ row, simple_select_one id db = some row ∧ convert_row_to_task id row = .ok t := by
  cases hs : simple_select_one id db with
  | none => rw [get_eq_none hs] at h; simp at h
  | some row =>
    rw [get_eq_some hs] at h
    cases hc : convert_row_to_task id row with
    | error e => rw [hc] at h; simp [Except.map] at h
    | ok t' =>
      rw [hc] at h
      simp only [Except.map, Except.ok.injEq, Option.some.injEq] at h
      exact ⟨row, rfl, by rw [hc, h]⟩

theorem update_frame_aux (db : Db) (id : String) (t : ScheduledTask)
    (ots : Option Int) (ost : Option TaskStatus) (ores : Option Json) (oerr : Option String)
    (h : get_scheduled_task id db = .ok (some t)) :
    (update_scheduled_task id ots ost ores oerr db).2 = true ∧
    get_scheduled_task id (update_scheduled_task id ots ost ores oerr db).1 =
      .ok (some { id := t.id, action := t.action, resource_id := t.resource_id,
                  params := t.params,
                  timestamp := ots.getD t.timestamp,
                  status := ost.getD t.status,
                  result := keepOr ores t.result,
                  error := keepOr oerr t.error }) := by
  obtain ⟨row, hs, hc⟩ := get_ok_some h
  obtain ⟨hst, hp, hq, hid, hact, hts, hrid, herr⟩ := convert_ok_fields hc
  obtain ⟨fact, fpar, frid, fts, fst, fres, ferr⟩ :=
    applyUpdate_fields ots ost ores oerr row
  obtain ⟨hs', hn⟩ := select_update_hit (applyUpdate ots ost ores oerr) hs
  constructor
  · rw [update_scheduled_task_eq]
    simpa using hn
  · have hst' : TaskStatus.ofStr (applyUpdate ots ost ores oerr row).status =
        some (ost.getD t.status) := by
      rw [fst]
      cases ost with
      | none => simpa using hst
      | some st => simp [ofStr_toStr]
    have hp' : decodeOptJson (applyUpdate ots ost ores oerr row).params = some t.params := by
      rw [fpar]; exact hp
    have hq' : decodeOptJson (applyUpdate ots ost ores oerr row).result =
        some (keepOr ores t.result) := by
      rw [fres]
      cases ores with
      | none => simpa [keepOr] using hq
      | some r => simp [keepOr, decodeOptJson, loads_dumps]
    rw [update_scheduled_task_eq]
    rw [get_eq_some hs', convert_ok_build id _ _ _ _ hst' hp' hq']
    simp only [Except.map, Except.ok.injEq, Option.some.injEq]
    rw [fact, fts, frid, ferr, ← hid, ← hact, ← hts, ← hrid, ← herr]

/-! ## Lemmas: the list filter -/

theorem rowSelected_none (row : DbRow) : rowSelected none none none row = true := rfl

theorem filter_rowSelected_none (db : Db) :
    db.filter (fun p => rowSelected none none none p.2) = db := by
  induction db with
  | nil => rfl
  | cons p rest ih => simp [List.filter_cons, rowSelected_none, ih]

theorem get_tasks_eq (actions resource_ids : Option (List String))
    (statuses : Option (List TaskStatus)) (db : Db) :
    get_scheduled_tasks actions resource_ids statuses db =
      convertRows
        (db.filter fun p =>
          rowSelected actions resource_ids (statuses.map (List.map TaskStatus.toStr)) p.2) := rfl

theorem get_tasks_none_eq (db : Db) :
    get_scheduled_tasks none none none db = convertRows db := by
  have h : get_scheduled_tasks none none none db =
      convertRows (db.filter fun p => rowSelected none none none p.2) := rfl
  rw [h, filter_rowSelected_none]

theorem rowSelected_eq_taskMatches (actions resource_ids : Option (List String))
    (statuses : Option (List TaskStatus)) {k : String} {row : DbRow} {t : ScheduledTask}
    (hc : convert_row_to_task k row = .ok t) :
    rowSelected actions resource_ids (statuses.map (List.map TaskStatus.toStr)) row =
      taskMatches actions resource_ids statuses t := by
  obtain ⟨hst, -, -, -, hact, -, hrid, -⟩ := convert_ok_fields hc
  have hsa : row.action = t.action := hact.symm
  have hsr : row.resource_id = t.resource_id := hrid.symm
  have hss : row.status = t.status.toStr := ofStr_some hst
  unfold rowSelected taskMatches
  rw [hsa, hsr, hss]
  congr 1
  cases statuses with
  | none => rfl
  | some l =>
    simp only [Option.map_some]
    cases l with
    | nil => rfl
    | cons a tl =>
      show make_in_list_sql_clause ((a :: tl).map TaskStatus.toStr) (some t.status.toStr) = _
      unfold make_in_list_sql_clause
      simp only [List.map_cons, List.isEmpty_cons, Bool.false_eq_true, if_false,
        List.isEmpty_nil]
      rw [← List.map_cons, contains_map_toStr]

/-! ## More helper lemmas for the claims -/

theorem get_update_other {id id' : String} (hne : id ≠ id') (ots : Option Int)
    (ost : Option TaskStatus) (ores : Option Json) (oerr : Option String) (db : Db) :
    get_scheduled_task id (update_scheduled_task id' ots ost ores oerr db).1 =
      get_scheduled_task id db := by
  rw [update_scheduled_task_eq]
  unfold get_scheduled_task
  rw [select_update_other hne]

theorem applyCalls_cons (c : UpdCall) (rest : List UpdCall) (db : Db) :
    applyCalls (c :: rest) db =
      applyCalls rest (update_scheduled_task c.id c.timestamp c.status c.result c.error db).1 :=
  rfl

/-! ## The claims -/

/-- C2: upserting a task and then fetching it by id returns a record equal to
the task in every field, with `params`/`result` round-tripping through JSON
encode (`json.dumps` on write) and decode (`json.loads` on read) losslessly as
structural equality (`loads_dumps`), and an absent `params`/`result` reading
back as absent. -/
theorem claim_C2_upsert_get_roundtrip (db : Db) (task : ScheduledTask) :
    get_scheduled_task task.id (upsert_scheduled_task task db) = .ok (some task) := by
  have hs : simple_select_one task.id (upsert_scheduled_task task db) = some (taskRow task) :=
    select_upsert task.id (taskRow task) db
  rw [get_eq_some hs, convert_taskRow]
  rfl

/-- C5: upsert is an insert-or-replace keyed by id writing all attributes
wholesale — after upserting, the stored row for the task's id equals
`taskRow task` regardless of the prior table contents; `params`/`result` are
serialized to JSON text exactly when present and stored as NULL exactly when
absent (never as an empty-object encoding). -/
theorem claim_C5_upsert_wholesale (db : Db) (task : ScheduledTask) :
    simple_select_one task.id (upsert_scheduled_task task db) = some (taskRow task) ∧
    ((taskRow task).params = none ↔ task.params = none) ∧
    ((taskRow task).result = none ↔ task.result = none) ∧
    (∀ p, task.params = some p → (taskRow task).params = some (dumps p)) ∧
    (∀ r, task.result = some r → (taskRow task).result = some (dumps r)) := by
  refine ⟨select_upsert task.id (taskRow task) db, ?_, ?_, ?_, ?_⟩
  · simp [taskRow]
  · simp [taskRow]
  · intro p hp; simp [taskRow, hp]
  · intro r hr; simp [taskRow, hr]

/-- C5 witness: a concrete upsert into the empty table. -/
theorem claim_C5_witness :
    simple_select_one sampleTask.id (upsert_scheduled_task sampleTask []) =
      some (taskRow sampleTask) ∧
    (taskRow sampleTask).params = some (dumps sampleParams) :=
  ⟨(claim_C5_upsert_wholesale [] sampleTask).1,
   (claim_C5_upsert_wholesale [] sampleTask).2.2.2.1 sampleParams rfl⟩

/-- C6: get with no matching row returns absent (`.ok none`) as a normal
result, not an error; with a matching row it returns that row deserialized by
the same `_convert_row_to_task` used by list. -/
theorem claim_C6_get_absent_not_error (db : Db) (id : String) :
    (simple_select_one id db = none → get_scheduled_task id db = .ok none) ∧
    (∀ row, simple_select_one id db = some row →
      get_scheduled_task id db = (convert_row_to_task id row).map some ∧
      convertRows [(id, row)] = (convert_row_to_task id row).map (fun t => [t])) := by
  constructor
  · exact get_eq_none
  · intro row hrow
    refine ⟨get_eq_some hrow, ?_⟩
    cases hc : convert_row_to_task id row with
    | error e => unfold convertRows; rw [hc]; rfl
    | ok t => unfold convertRows; rw [hc]; rfl

/-- C6 witness: a missing id and a present id on the sample table. -/
theorem claim_C6_witness :
    get_scheduled_task "zz" sampleDb = .ok none ∧
    get_scheduled_task "t1" sampleDb =
      (convert_row_to_task "t1" (taskRow sampleTask)).map some :=
  ⟨(claim_C6_get_absent_not_error sampleDb "zz").1 rfl,
   ((claim_C6_get_absent_not_error sampleDb "t1").2 (taskRow sampleTask) rfl).1⟩

/-- C7: delete removes the row for the given id and is idempotent — a get
after delete returns absent, deleting again changes nothing, and deleting a
non-existent id leaves the table unchanged (and is not an error). -/
theorem claim_C7_delete_idempotent (db : Db) (id : String) :
    get_scheduled_task id (delete_scheduled_task id db) = .ok none ∧
    delete_scheduled_task id (delete_scheduled_task id db) = delete_scheduled_task id db ∧
    (simple_select_one id db = none → delete_scheduled_task id db = db) := by
  refine ⟨?_, ?_, ?_⟩
  · exact get_eq_none (select_delete id db)
  · exact delete_idem id db
  · exact fun h => delete_missing h

/-- C7 witness: deleting an existing and a non-existent id on the sample
table. -/
theorem claim_C7_witness :
    get_scheduled_task "t1" (delete_scheduled_task "t1" sampleDb) = .ok none ∧
    delete_scheduled_task "zz" sampleDb = sampleDb :=
  ⟨(claim_C7_delete_idempotent sampleDb "t1").1,
   (claim_C7_delete_idempotent sampleDb "zz").2.2 rfl⟩

/-- C1: the three list filters have three-state semantics and are ANDed —
given that the unfiltered list succeeds with `ts`, every filtered list returns
exactly the tasks of `ts` matching the task-level three-state predicate
(absent → no constraint; empty → column NULL; non-empty → membership), and the
unfiltered list returns exactly the stored rows (same ids, in order). -/
theorem claim_C1_list_filter_semantics (db : Db) (ts : List ScheduledTask)
    (h : get_scheduled_tasks none none none db = .ok ts)
    (actions resource_ids : Option (List String)) (statuses : Option (List TaskStatus)) :
    get_scheduled_tasks actions resource_ids statuses db =
      .ok (ts.filter (taskMatches actions resource_ids statuses)) ∧
    ts.map ScheduledTask.id = db.map Prod.fst := by
  rw [get_tasks_none_eq] at h
  constructor
  · rw [get_tasks_eq]
    exact convertRows_filter _ _
      (fun k row t hc => rowSelected_eq_taskMatches actions resource_ids statuses hc) db ts h
  · exact convertRows_ids db ts h

theorem convertRows_taskRows : ∀ tasks : List ScheduledTask,
    convertRows (tasks.map fun t => (t.id, taskRow t)) = .ok tasks := by
  intro tasks
  induction tasks with
  | nil => rfl
  | cons t rest ih =>
    simp only [List.map_cons]
    unfold convertRows
    rw [convert_taskRow, ih]

/-- C1 witness: filtering the two-row sample table by action. -/
theorem claim_C1_witness :
    get_scheduled_tasks (some ["purge_history"]) none none sampleDb =
      .ok ([sampleTask, sampleTask2].filter
        (taskMatches (some ["purge_history"]) none none)) ∧
    [sampleTask, sampleTask2].map ScheduledTask.id = sampleDb.map Prod.fst := by
  have hdb : sampleDb = [sampleTask, sampleTask2].map (fun t => (t.id, taskRow t)) := rfl
  have h : get_scheduled_tasks none none none sampleDb = .ok [sampleTask, sampleTask2] := by
    rw [get_tasks_none_eq, hdb, convertRows_taskRows]
  exact claim_C1_list_filter_semantics sampleDb [sampleTask, sampleTask2] h
    (some ["purge_history"]) none none

/-- C3: update modifies only the explicitly supplied fields among timestamp,
status, result, error; omitted fields keep their stored values, and id,
action, resource_id and params are never modified by update. -/
theorem claim_C3_update_partial_frame (db : Db) (id : String) (t : ScheduledTask)
    (timestamp : Option Int) (status : Option TaskStatus) (result : Option Json)
    (err : Option String)
    (h : get_scheduled_task id db = .ok (some t)) :
    get_scheduled_task id (update_scheduled_task id timestamp status result err db).1 =
      .ok (some { id := t.id, action := t.action, resource_id := t.resource_id,
                  params := t.params,
                  timestamp := timestamp.getD t.timestamp,
                  status := status.getD t.status,
                  result := keepOr result t.result,
                  error := keepOr err t.error }) :=
  (update_frame_aux db id t timestamp status result err h).2

/-- C3 witness: marking the sample task complete with a result touches only
status and result. -/
theorem claim_C3_witness :
    get_scheduled_task "t1"
      (update_scheduled_task "t1" none (some .complete)
        (some (.obj [("x", .num 1)])) none sampleDb).1 =
      .ok (some { id := sampleTask.id, action := sampleTask.action,
                  resource_id := sampleTask.resource_id,
                  params := sampleTask.params,
                  timestamp := (none : Option Int).getD sampleTask.timestamp,
                  status := (some TaskStatus.complete).getD sampleTask.status,
                  result := keepOr (some (Json.obj [("x", Json.num 1)])) sampleTask.result,
                  error := keepOr (none : Option String) sampleTask.error }) := by
  have hsel : simple_select_one "t1" sampleDb = some (taskRow sampleTask) := rfl
  have hc : convert_row_to_task "t1" (taskRow sampleTask) = .ok sampleTask :=
    convert_taskRow sampleTask
  have h : get_scheduled_task "t1" sampleDb = .ok (some sampleTask) := by
    rw [get_eq_some hsel, hc]; rfl
  exact claim_C3_update_partial_frame sampleDb "t1" sampleTask none (some .complete)
    (some (.obj [("x", .num 1)])) none h

/-- C4: update on a non-existent id returns false (not an error) and leaves
the table unchanged; update on an existing id returns true. -/
theorem claim_C4_update_missing_false (db : Db) (id : String)
    (timestamp : Option Int) (status : Option TaskStatus) (result : Option Json)
    (err : Option String) :
    (simple_select_one id db = none →
      update_scheduled_task id timestamp status result err db = (db, false)) ∧
    (∀ row, simple_select_one id db = some row →
      (update_scheduled_task id timestamp status result err db).2 = true) := by
  constructor
  · intro h
    rw [update_scheduled_task_eq, update_missing h]
    rfl
  · intro row hrow
    rw [update_scheduled_task_eq]
    simpa using (select_update_hit (applyUpdate timestamp status result err) hrow).2

/-- C4 witness: a missing and a present id on the sample table. -/
theorem claim_C4_witness :
    update_scheduled_task "zz" none none none none sampleDb = (sampleDb, false) ∧
    (update_scheduled_task "t1" none none none none sampleDb).2 = true :=
  ⟨(claim_C4_update_missing_false sampleDb "zz" none none none none).1 rfl,
   (claim_C4_update_missing_false sampleDb "t1" none none none none).2
     (taskRow sampleTask) rfl⟩

/-- C8: a stored `params` or `result` column holding text that `json.loads`
rejects makes both get and list propagate a hard deserialization error; the
store never repairs the value or silently drops the row. -/
theorem claim_C8_malformed_json_hard_error (db : Db) (id : String) (row : DbRow)
    (s : String) (hcol : row.params = some s ∨ row.result = some s)
    (hbad : loads s = none) :
    (simple_select_one id db = some row → ∃ e, get_scheduled_task id db = .error e) ∧
    ((id, row) ∈ db → ∃ e, get_scheduled_tasks none none none db = .error e) := by
  have hconv : ∃ e, convert_row_to_task id row = .error e := by
    rcases hcol with hps | hrs
    · have hp : decodeOptJson row.params = none := by
        rw [hps]; simp [decodeOptJson, hbad]
      unfold convert_row_to_task
      cases hst : TaskStatus.ofStr row.status with
      | none => exact ⟨.badStatus, rfl⟩
      | some st => exact ⟨.badJson, by rw [hp]⟩
    · have hq : decodeOptJson row.result = none := by
        rw [hrs]; simp [decodeOptJson, hbad]
      unfold convert_row_to_task
      cases hst : TaskStatus.ofStr row.status with
      | none => exact ⟨.badStatus, rfl⟩
      | some st =>
        cases hp : decodeOptJson row.params with
        | none => exact ⟨.badJson, rfl⟩
        | some ps => exact ⟨.badJson, by rw [hq]⟩
  obtain ⟨e, he⟩ := hconv
  constructor
  · intro hrow
    exact ⟨e, by rw [get_eq_some hrow, he]; rfl⟩
  · intro hmem
    rw [get_tasks_none_eq]
    exact convertRows_mem_error db id row hmem ⟨e, he⟩

/-- C8 witness: the text `"{"` is not well-formed JSON; reading it fails in
both get and list. -/
theorem claim_C8_witness :
    (∃ e, get_scheduled_task "tb" badDb = .error e) ∧
    (∃ e, get_scheduled_tasks none none none badDb = .error e) := by
  have h := claim_C8_malformed_json_hard_error badDb "tb" badJsonRow "\x7b"
    (Or.inl rfl) rfl
  exact ⟨h.1 rfl, h.2 (by simp [badDb])⟩

/-- C9: update can never clear a field back to absent — passing `none` means
"leave unchanged", so a stored task whose result (or error) is present keeps
it present under every sequence of update calls, and `params` is never
changed by updates at all. -/
theorem claim_C9_update_never_clears (db : Db) (id : String) (t : ScheduledTask)
    (h : get_scheduled_task id db = .ok (some t)) (calls : List UpdCall) :
    ∃ t', get_scheduled_task id (applyCalls calls db) = .ok (some t') ∧
      (t.result.isSome = true → t'.result.isSome = true) ∧
      (t.error.isSome = true → t'.error.isSome = true) ∧
      t'.params = t.params := by
  induction calls generalizing db t with
  | nil => exact ⟨t, h, fun x => x, fun x => x, rfl⟩
  | cons c rest ih =>
    obtain ⟨cid, cts, cst, cres, cerr⟩ := c
    rw [applyCalls_cons]
    by_cases hcid : cid = id
    · subst hcid
      have step := (update_frame_aux db cid t cts cst cres cerr h).2
      obtain ⟨t', hget, hres, herrs, hpar⟩ := ih _ _ step
      refine ⟨t', hget, ?_, ?_, ?_⟩
      · intro hr
        apply hres
        show (keepOr cres t.result).isSome = true
        cases cres with
        | none => simpa [keepOr] using hr
        | some r => simp [keepOr]
      · intro hr
        apply herrs
        show (keepOr cerr t.error).isSome = true
        cases cerr with
        | none => simpa [keepOr] using hr
        | some e => simp [keepOr]
      · exact hpar
    · have hne : id ≠ cid := fun hc => hcid hc.symm
      have hstep : get_scheduled_task id
          (update_scheduled_task cid cts cst cres cerr db).1 = .ok (some t) := by
        rw [get_update_other hne]; exact h
      exact ih _ _ hstep

/-- C9 witness: one update call on the sample task that has a result and an
error stored. -/
theorem claim_C9_witness :
    ∃ t', get_scheduled_task "t2" (applyCalls [sampleCall] sampleDb) = .ok (some t') ∧
      (sampleTask2.result.isSome = true → t'.result.isSome = true) ∧
      (sampleTask2.error.isSome = true → t'.error.isSome = true) ∧
      t'.params = sampleTask2.params := by
  have hsel : simple_select_one "t2" sampleDb = some (taskRow sampleTask2) := rfl
  have hc : convert_row_to_task "t2" (taskRow sampleTask2) = .ok sampleTask2 :=
    convert_taskRow sampleTask2
  have h : get_scheduled_task "t2" sampleDb = .ok (some sampleTask2) := by
    rw [get_eq_some hsel, hc]; rfl
  exact claim_C9_update_never_clears sampleDb "t2" sampleTask2 h [sampleCall]

/-- C10: every task the store returns carries one of the four enumerated
statuses (`TaskStatus.ofStr` succeeds exactly on their stored texts, and the
deserializer's status comes from it); a stored status outside the enum makes
the read fail hard with `.badStatus` instead of returning a task. -/
theorem claim_C10_status_enum (s : String) (db : Db) (id : String) (row : DbRow) :
    ((TaskStatus.ofStr s).isSome ↔
      s = "scheduled" ∨ s = "active" ∨ s = "complete" ∨ s = "failed") ∧
    (∀ st : TaskStatus, TaskStatus.ofStr st.toStr = some st) ∧
    (simple_select_one id db = some row → TaskStatus.ofStr row.status = none →
      get_scheduled_task id db = .error .badStatus) := by
  refine ⟨?_, ofStr_toStr, ?_⟩
  · unfold TaskStatus.ofStr
    split_ifs with h1 h2 h3 h4 <;> simp_all
  · intro hrow hbad
    rw [get_eq_some hrow]
    unfold convert_row_to_task
    rw [hbad]
    rfl

/-- C10 witness: the out-of-enum status text `"pending"` fails the read. -/
theorem claim_C10_witness :
    get_scheduled_task "ts" badStatusDb = .error .badStatus :=
  (claim_C10_status_enum "pending" badStatusDb "ts" badStatusRow).2.2 rfl rfl
